import Mathlib

/-!
Shallow embedding of the typewriter-sound utility:
`listener/player.py` (class `TinyPlayer`), `listener/main.py`
(class `BackgroundKeyboardListener` and the example entry point).

External effects are modelled explicitly:
- the filesystem is a parameter `FS` giving the result of `os.path.exists`
  and of opening/reading a wave file;
- file-system interactions performed by an operation are returned as a
  list of `IOEvent`s;
- the audio device is a parameter telling how far the
  open/write/stop/close sequence of `TinyPlayer.play` gets before an
  exception; device interactions are returned as a list of `DevEvent`s;
- a Python exception escaping to the caller is modelled with an
  `Option String` field (`none` = returns normally).
-/

/-- Decoded PCM payload cached per file: the tuple
`(audio_data, channels, sample_width, framerate)` built in
`TinyPlayer.load_sound` (player.py line 49). -/
structure Payload where
  audioData : List Nat
  channels : Nat
  sampleWidth : Nat
  framerate : Nat
deriving DecidableEq, Repr

/-- File-system interactions of `load_sound`. -/
inductive IOEvent
  /-- the `os.path.exists(filepath)` check (player.py line 20) -/
  | statCheck (path : String)
  /-- opening and reading the wave file (player.py lines 32-39) -/
  | waveRead (path : String)
deriving DecidableEq, Repr

/-- Environment model of the filesystem. `pathExists` is the result of
`os.path.exists`; `readWave` is `some payload` when `wave.open` and
`readframes` succeed and `none` when they raise (missing, unreadable or
malformed file). -/
structure FS where
  pathExists : String → Bool
  readWave : String → Option Payload

/-- The mutable state of a `TinyPlayer` (player.py lines 11-16):
`_cache` (a dict, modelled as an association list), `_cache_keys`
(the LRU recency list, least recently used first), `_cache_size`,
and whether `pa.terminate()` has been called. -/
structure PlayerState where
  cache : List (String × Payload)
  cacheKeys : List String
  cacheSize : Nat
  paTerminated : Bool
deriving DecidableEq, Repr

/-- `TinyPlayer.__init__(cache_size)`. -/
def initPlayer (cacheSize : Nat) : PlayerState :=
  { cache := [], cacheKeys := [], cacheSize := cacheSize, paTerminated := false }

/-- Python `filepath in self._cache` (dict membership). -/
def dictMem (d : List (String × Payload)) (k : String) : Bool :=
  d.any (fun kv => kv.1 = k)

/-- Python `self._cache[filepath]` as a partial lookup (`none` = `KeyError`). -/
def dictGet (d : List (String × Payload)) (k : String) : Option Payload :=
  (d.find? (fun kv => kv.1 = k)).map (fun kv => kv.2)

/-- Python `del self._cache[oldest]`: removes the entry for `k`
(a dict holds at most one entry per key). -/
def dictDel (d : List (String × Payload)) (k : String) : List (String × Payload) :=
  d.filter (fun kv => !(kv.1 = k : Bool))

/-- Python `self._cache[filepath] = v`: replace if present, else append. -/
def dictInsert (d : List (String × Payload)) (k : String) (v : Payload) :
    List (String × Payload) :=
  if dictMem d k then d.map (fun kv => if kv.1 = k then (k, v) else kv)
  else d ++ [(k, v)]

/-- Result of `TinyPlayer.load_sound`: the post-call state, the returned
boolean, and the file-system interactions performed. `load_sound` cannot
let an exception escape: the wave read and the cache update sit inside
`try ... except Exception` (player.py lines 31-55), and the statements
before the `try` (`os.path.exists`, the dict membership test and, on the
hit path, `remove`/`append` on a list that contains the path) do not
raise. -/
structure LoadResult where
  state : PlayerState
  ok : Bool
  ioEvents : List IOEvent
deriving DecidableEq, Repr

/-- `TinyPlayer.load_sound` (player.py lines 18-55).
The `os.path.exists` check comes first (line 20); a cache hit moves the
path to the tail of `_cache_keys` (lines 25-29); otherwise the wave file
is read and, under the lock, the head of `_cache_keys` is evicted when
`len(_cache_keys) >= _cache_size` and the list is nonempty (lines 42-50). -/
def load_sound (fs : FS) (st : PlayerState) (filepath : String) : LoadResult :=
  if !(fs.pathExists filepath) then
    { state := st, ok := false, ioEvents := [IOEvent.statCheck filepath] }
  else if dictMem st.cache filepath then
    { state := { st with cacheKeys := st.cacheKeys.erase filepath ++ [filepath] },
      ok := true, ioEvents := [IOEvent.statCheck filepath] }
  else
    match fs.readWave filepath with
    | none =>
      { state := st, ok := false,
        ioEvents := [IOEvent.statCheck filepath, IOEvent.waveRead filepath] }
    | some payload =>
      let st1 :=
        if st.cacheSize ≤ st.cacheKeys.length && !st.cacheKeys.isEmpty then
          match st.cacheKeys with
          | [] => st
          | oldest :: rest =>
            { st with cache := dictDel st.cache oldest, cacheKeys := rest }
        else st
      { state := { st1 with cache := dictInsert st1.cache filepath payload,
                            cacheKeys := st1.cacheKeys ++ [filepath] },
        ok := true,
        ioEvents := [IOEvent.statCheck filepath, IOEvent.waveRead filepath] }

/-- Audio-device interactions of `TinyPlayer.play` (player.py lines 68-81). -/
inductive DevEvent
  | openStream (p : Payload)
  | writeStream (p : Payload)
  | stopStream (p : Payload)
  | closeStream (p : Payload)
deriving DecidableEq, Repr

/-- How far the device lets one playback attempt get: `pa.open` raises,
`stream.write` raises, or everything succeeds. -/
inductive DevOutcome
  | openFails
  | writeFails
  | ok
deriving DecidableEq, Repr

/-- The `try` block of `TinyPlayer.play` (lines 68-83): any exception is
caught and printed, so only the interactions up to the failure happen. -/
def tryPlayback (dev : Payload → DevOutcome) (p : Payload) : List DevEvent :=
  match dev p with
  | DevOutcome.openFails => [DevEvent.openStream p]
  | DevOutcome.writeFails => [DevEvent.openStream p, DevEvent.writeStream p]
  | DevOutcome.ok =>
    [DevEvent.openStream p, DevEvent.writeStream p,
     DevEvent.stopStream p, DevEvent.closeStream p]

/-- Result of `TinyPlayer.play`: post-state, device interactions, and
the exception escaping to the caller (`none` = returns normally).
The only statement of `play` outside the `try` block that can raise is
the dict access `self._cache[filepath]` (line 65, a possible `KeyError`). -/
structure PlayResult where
  state : PlayerState
  devEvents : List DevEvent
  raised : Option String
deriving DecidableEq, Repr

/-- `TinyPlayer.play` (player.py lines 57-83): if the path is not cached,
try `load_sound` and return on failure; then read the cache entry and run
the playback attempt with all device errors caught. -/
def play (fs : FS) (dev : Payload → DevOutcome) (st : PlayerState)
    (filepath : String) : PlayResult :=
  if !(dictMem st.cache filepath) then
    let r := load_sound fs st filepath
    if !r.ok then { state := r.state, devEvents := [], raised := none }
    else
      match dictGet r.state.cache filepath with
      | none => { state := r.state, devEvents := [], raised := some "KeyError" }
      | some payload =>
        { state := r.state, devEvents := tryPlayback dev payload, raised := none }
  else
    match dictGet st.cache filepath with
    | none => { state := st, devEvents := [], raised := some "KeyError" }
    | some payload =>
      { state := st, devEvents := tryPlayback dev payload, raised := none }

/-- `TinyPlayer.cleanup` (player.py lines 96-103): clear the dict and the
recency list, then `pa.terminate()` inside `try ... except: pass`, so no
exception escapes and repeated calls behave identically. -/
def cleanup (st : PlayerState) : PlayerState :=
  { st with cache := [], cacheKeys := [], paTerminated := true }

/-! ### Lock discipline

Each mutating statement of the source is modelled as a `Step` tagged with
whether it mutates the shared cache state (the dict or the recency list)
and whether `self._lock` is held while it runs. -/

/-- One mutating statement of the source, with its lock context. -/
structure Step where
  mutates : Bool
  locked : Bool
deriving DecidableEq, Repr

/-- The cache-state mutations performed by `load_sound`, in program order,
each tagged with whether `self._lock` is held (player.py lines 18-55).
On a cache hit, `self._cache_keys.remove(filepath)` and
`self._cache_keys.append(filepath)` (lines 27-28) run before any lock is
taken. On a miss with a successful read, the eviction (`pop(0)` and
`del`, lines 45-46) and the insertion (lines 49-50) run inside
`with self._lock` (line 42). Failure paths mutate nothing. -/
def load_sound_steps (fs : FS) (st : PlayerState) (filepath : String) : List Step :=
  if !(fs.pathExists filepath) then []
  else if dictMem st.cache filepath then
    [{ mutates := true, locked := false }, { mutates := true, locked := false }]
  else
    match fs.readWave filepath with
    | none => []
    | some _ =>
      (if st.cacheSize ≤ st.cacheKeys.length && !st.cacheKeys.isEmpty then
        [{ mutates := true, locked := true }, { mutates := true, locked := true }]
      else []) ++
      [{ mutates := true, locked := true }, { mutates := true, locked := true }]

/-- The cache-state mutations performed by `play` (player.py lines 57-83):
`play` mutates the cache only through its `load_sound` call on an uncached
path; the playback itself never touches the cache. -/
def play_steps (fs : FS) (st : PlayerState) (filepath : String) : List Step :=
  if !(dictMem st.cache filepath) then load_sound_steps fs st filepath else []

/-- The cache-state mutations performed by `cleanup` (player.py
lines 98-99): `self._cache.clear()` and `self._cache_keys.clear()`, with
no lock acquisition anywhere in `cleanup`. -/
def cleanup_steps : List Step :=
  [{ mutates := true, locked := false }, { mutates := true, locked := false }]

/-! ### The keyboard listener (`listener/main.py`) -/

/-- A key event as delivered by the capture facility: `key.char` raises
`AttributeError` for special keys (modelled by `none`), and `str(key)`
is always available. -/
structure Key where
  char : Option String
  name : String

/-- A registered callback `(key, event_type) -> void`; `some e` models the
callback raising exception `e`, `none` a normal return. -/
def Callback : Type := Key → String → Option String

/-- The callback loop of `BackgroundKeyboardListener._on_press`
(main.py lines 51-52): `for callback in self.callbacks: callback(key, "press")`.
There is no exception handling around the call, so a raising callback
aborts the loop and the exception propagates. Returns the zero-based
registration indices of the callbacks actually invoked, in invocation
order, and the escaping exception if any. -/
def onPressLoop : List Callback → Key → Nat → List Nat × Option String
  | [], _, _ => ([], none)
  | cb :: rest, k, i =>
    match cb k "press" with
    | some e => ([i], some e)
    | none =>
      let r := onPressLoop rest k (i + 1)
      (i :: r.1, r.2)

/-- `BackgroundKeyboardListener._on_press` (main.py lines 40-52): compute
the printable key name (`key.char`, falling back to `str(key)` on
`AttributeError`), emit a log line when a logger is configured, then run
the callback loop. Returns (log lines, invoked callback indices,
escaping exception). -/
def on_press (callbacks : List Callback) (hasLogger : Bool) (k : Key) :
    List String × List Nat × Option String :=
  let keyChar := match k.char with
    | some c => c
    | none => k.name
  let logs := if hasLogger then ["Key pressed: " ++ keyChar] else []
  (logs, onPressLoop callbacks k 0)

/-! ### The example entry point (`listener/main.py` lines 103-127) -/

/-- Observable outcome of the `__main__` block of main.py. -/
structure MainResult where
  exitStatus : Nat
  listenerStarted : Bool
  printed : List String
deriving DecidableEq, Repr

/-- The `__main__` block of main.py (lines 103-127): build a
`TinyPlayer(cache_size=100)`, `load_sound` the configured path; on
success print, start the listener and loop until `KeyboardInterrupt`,
then stop and fall off the end of the script (exit status 0); on failure
print "Failed to load sound" and call bare `exit()`, which raises
`SystemExit(None)` and terminates the process with exit status 0 without
starting the listener. The success branch models the run up to an
eventual interrupt. -/
def mainEntry (fs : FS) (soundPath : String) : MainResult :=
  let r := load_sound fs (initPlayer 100) soundPath
  if r.ok then
    { exitStatus := 0, listenerStarted := true,
      printed := ["Sound loaded successfully",
                  "Keyboard listener is running. Press Ctrl+C to stop.",
                  "Keyboard listener stopped."] }
  else
    { exitStatus := 0, listenerStarted := false,
      printed := ["Failed to load sound"] }

/-! ### Recency-clock instrumentation for the LRU law

To state "the evicted entry is the least recently accessed", runs of
`load_sound` are instrumented with a logical clock: every successful
`load_sound` of a path (a hit or an insertion) stamps that path with the
current time. The instrumentation only observes the run; the player
state evolves exactly by `load_sound`. -/

/-- Player state plus the access clock. -/
structure TimedState where
  ps : PlayerState
  lastAccess : String → Nat
  clock : Nat

/-- One instrumented `load_sound` call. -/
def tLoad (fs : FS) (ts : TimedState) (filepath : String) : TimedState :=
  let r := load_sound fs ts.ps filepath
  if r.ok then
    { ps := r.state,
      lastAccess := fun q => if q = filepath then ts.clock else ts.lastAccess q,
      clock := ts.clock + 1 }
  else
    { ts with ps := r.state }

/-- A sequence of instrumented `load_sound` calls. -/
def runTLoads (fs : FS) : TimedState → List String → TimedState
  | ts, [] => ts
  | ts, p :: ps => runTLoads fs (tLoad fs ts p) ps

/-- The instrumented state of a freshly constructed player. -/
def initTimed (cacheSize : Nat) : TimedState :=
  { ps := initPlayer cacheSize, lastAccess := fun _ => 0, clock := 1 }

/-- The entry that a `load_sound fs st filepath` call evicts, if any:
on a miss with a successful read and a full cache, the head of
`_cache_keys` (player.py lines 44-46). -/
def evictedBy (fs : FS) (st : PlayerState) (filepath : String) : Option String :=
  if !(fs.pathExists filepath) then none
  else if dictMem st.cache filepath then none
  else
    match fs.readWave filepath with
    | none => none
    | some _ =>
      if st.cacheSize ≤ st.cacheKeys.length && !st.cacheKeys.isEmpty then
        st.cacheKeys.head?
      else none

/-! ### Structural invariant and concrete fixtures -/

/-- The structural invariant of the cache (claim of `TinyPlayer.__init__`,
player.py lines 13-14): the recency list has no duplicates and its
elements are exactly the keys of the dict. -/
def CacheInv (st : PlayerState) : Prop :=
  st.cacheKeys.Nodup ∧
  st.cache.map Prod.fst ⊆ st.cacheKeys ∧
  st.cacheKeys ⊆ st.cache.map Prod.fst

instance (st : PlayerState) : Decidable (CacheInv st) := by
  unfold CacheInv; infer_instance

/-- A fixed payload used by the concrete scenarios. -/
def payload0 : Payload :=
  { audioData := [0, 1], channels := 1, sampleWidth := 2, framerate := 44100 }

/-- A filesystem on which every path exists and reads as `payload0`. -/
def fsAll : FS :=
  { pathExists := fun _ => true, readWave := fun _ => some payload0 }

/-- A filesystem on which no path exists. -/
def fsGone : FS :=
  { pathExists := fun _ => false, readWave := fun _ => none }

/-- Player state after `load_sound("a.wav")` on a fresh capacity-2 player. -/
def stA : PlayerState := (load_sound fsAll (initPlayer 2) "a.wav").state

/-- ... after a second `load_sound("b.wav")`. -/
def stAB : PlayerState := (load_sound fsAll stA "b.wav").state

/-- ... after `load_sound("c.wav")` on the full cache. -/
def stABC : PlayerState := (load_sound fsAll stAB "c.wav").state

/-- ... after a refreshing cache hit `load_sound("a.wav")` instead. -/
def stABA : PlayerState := (load_sound fsAll stAB "a.wav").state

/-- ... after `load_sound("c.wav")` following the refreshing hit. -/
def stABAC : PlayerState := (load_sound fsAll stABA "c.wav").state

/-- A callback that raises an exception on every event. -/
def cbRaises : Callback := fun _ _ => some "boom"

/-- A callback that returns normally on every event. -/
def cbOk : Callback := fun _ _ => none

/-- The key event for the letter "a". -/
def keyA : Key := { char := some "a", name := "a" }

/-! ### Basic lemmas about the dict model -/

theorem dictMem_iff_mem_map (d : List (String × Payload)) (k : String) :
    dictMem d k = true ↔ k ∈ d.map Prod.fst := by
  simp [dictMem, List.any_eq_true, List.mem_map]

theorem dictMem_eq_false_iff (d : List (String × Payload)) (k : String) :
    dictMem d k = false ↔ k ∉ d.map Prod.fst := by
  rw [← Bool.not_eq_true, not_iff_not]
  exact dictMem_iff_mem_map d k

theorem map_fst_dictDel (d : List (String × Payload)) (k : String) :
    (dictDel d k).map Prod.fst = (d.map Prod.fst).filter (fun q => !(q = k : Bool)) := by
  induction d with
  | nil => rfl
  | cons kv tl ih =>
    by_cases h : kv.1 = k
    · simp [dictDel, List.filter, h] at ih ⊢
      exact ih
    · simp [dictDel, List.filter, h] at ih ⊢
      exact ih

theorem dictInsert_of_not_mem (d : List (String × Payload)) (k : String) (v : Payload)
    (h : dictMem d k = false) : dictInsert d k v = d ++ [(k, v)] := by
  simp [dictInsert, h]

theorem dictGet_isSome_of_mem (d : List (String × Payload)) (k : String)
    (h : dictMem d k = true) : ∃ v, dictGet d k = some v := by
  induction d with
  | nil => simp [dictMem] at h
  | cons kv tl ih =>
    by_cases hk : kv.1 = k
    · exact ⟨kv.2, by simp [dictGet, List.find?_cons, hk]⟩
    · have h' : dictMem tl k = true := by
        simpa [dictMem, List.any_cons, hk] using h
      obtain ⟨v, hv⟩ := ih h'
      refine ⟨v, ?_⟩
      simpa [dictGet, List.find?_cons, hk] using hv

/-! ### Case equations for `load_sound` -/

theorem load_sound_of_not_exists (fs : FS) (st : PlayerState) (p : String)
    (h : fs.pathExists p = false) :
    load_sound fs st p = { state := st, ok := false, ioEvents := [IOEvent.statCheck p] } := by
  simp [load_sound, h]

theorem load_sound_hit (fs : FS) (st : PlayerState) (p : String)
    (h1 : fs.pathExists p = true) (h2 : dictMem st.cache p = true) :
    load_sound fs st p =
      { state := { st with cacheKeys := st.cacheKeys.erase p ++ [p] },
        ok := true, ioEvents := [IOEvent.statCheck p] } := by
  simp [load_sound, h1, h2]

theorem load_sound_read_fail (fs : FS) (st : PlayerState) (p : String)
    (h1 : fs.pathExists p = true) (h2 : dictMem st.cache p = false)
    (h3 : fs.readWave p = none) :
    load_sound fs st p =
      { state := st, ok := false,
        ioEvents := [IOEvent.statCheck p, IOEvent.waveRead p] } := by
  simp [load_sound, h1, h2, h3]

theorem load_sound_insert_noevict (fs : FS) (st : PlayerState) (p : String) (v : Payload)
    (h1 : fs.pathExists p = true) (h2 : dictMem st.cache p = false)
    (h3 : fs.readWave p = some v)
    (h4 : (decide (st.cacheSize ≤ st.cacheKeys.length) && !st.cacheKeys.isEmpty) = false) :
    load_sound fs st p =
      { state := { st with cache := dictInsert st.cache p v,
                           cacheKeys := st.cacheKeys ++ [p] },
        ok := true,
        ioEvents := [IOEvent.statCheck p, IOEvent.waveRead p] } := by
  simp [load_sound, h1, h2, h3, h4]

theorem load_sound_insert_evict (fs : FS) (st : PlayerState) (p : String) (v : Payload)
    (oldest : String) (rest : List String)
    (h1 : fs.pathExists p = true) (h2 : dictMem st.cache p = false)
    (h3 : fs.readWave p = some v)
    (h4 : st.cacheSize ≤ st.cacheKeys.length)
    (h5 : st.cacheKeys = oldest :: rest) :
    load_sound fs st p =
      { state := { st with cache := dictInsert (dictDel st.cache oldest) p v,
                           cacheKeys := rest ++ [p] },
        ok := true,
        ioEvents := [IOEvent.statCheck p, IOEvent.waveRead p] } := by
  have h4' : st.cacheSize ≤ rest.length + 1 := by
    rw [h5] at h4
    simpa using h4
  simp [load_sound, h1, h2, h3, h5, h4']

/-! ### Preservation of the structural cache invariant -/

theorem cacheSize_load (fs : FS) (st : PlayerState) (p : String) :
    (load_sound fs st p).state.cacheSize = st.cacheSize := by
  by_cases h1 : fs.pathExists p = true
  · by_cases h2 : dictMem st.cache p = true
    · rw [load_sound_hit fs st p h1 h2]
    · have h2' : dictMem st.cache p = false := by simpa using h2
      cases h3 : fs.readWave p with
      | none => rw [load_sound_read_fail fs st p h1 h2' h3]
      | some v =>
        by_cases h4 : (decide (st.cacheSize ≤ st.cacheKeys.length) && !st.cacheKeys.isEmpty) = true
        · have h4a : st.cacheSize ≤ st.cacheKeys.length := by
            have := (Bool.and_eq_true _ _).mp h4
            exact of_decide_eq_true this.1
          cases h5 : st.cacheKeys with
          | nil => rw [h5] at h4; simp at h4
          | cons oldest rest =>
            rw [load_sound_insert_evict fs st p v oldest rest h1 h2' h3 h4a h5]
        · have h4' : (decide (st.cacheSize ≤ st.cacheKeys.length) && !st.cacheKeys.isEmpty) = false := by
            simpa using h4
          rw [load_sound_insert_noevict fs st p v h1 h2' h3 h4']
  · have h1' : fs.pathExists p = false := by simpa using h1
    rw [load_sound_of_not_exists fs st p h1']

theorem cacheInv_load (fs : FS) (st : PlayerState) (p : String) (h : CacheInv st) :
    CacheInv (load_sound fs st p).state := by
  obtain ⟨hnd, hsub1, hsub2⟩ := h
  by_cases h1 : fs.pathExists p = true
  · by_cases h2 : dictMem st.cache p = true
    · rw [load_sound_hit fs st p h1 h2]
      have hpm : p ∈ st.cache.map Prod.fst := (dictMem_iff_mem_map _ _).mp h2
      have hpk : p ∈ st.cacheKeys := hsub1 hpm
      refine ⟨?_, ?_, ?_⟩
      · refine List.Nodup.append (hnd.erase p) (List.nodup_singleton p) ?_
        intro q hq hq'
        rw [List.mem_singleton] at hq'
        subst hq'
        exact absurd ((hnd.mem_erase_iff).mp hq).1 (by simp)
      · intro q hq
        rw [List.mem_append, List.mem_singleton]
        by_cases hqp : q = p
        · exact Or.inr hqp
        · exact Or.inl ((List.mem_erase_of_ne hqp).mpr (hsub1 hq))
      · intro q hq
        rw [List.mem_append, List.mem_singleton] at hq
        rcases hq with hq | hq
        · exact hsub2 (List.erase_subset _ _ hq)
        · subst hq; exact hpm
    · have h2' : dictMem st.cache p = false := by simpa using h2
      have hpm : p ∉ st.cache.map Prod.fst := (dictMem_eq_false_iff _ _).mp h2'
      have hpk : p ∉ st.cacheKeys := fun hk => hpm (hsub2 hk)
      cases h3 : fs.readWave p with
      | none =>
        rw [load_sound_read_fail fs st p h1 h2' h3]
        exact ⟨hnd, hsub1, hsub2⟩
      | some v =>
        by_cases h4 : (decide (st.cacheSize ≤ st.cacheKeys.length) && !st.cacheKeys.isEmpty) = true
        · have h4a : st.cacheSize ≤ st.cacheKeys.length := by
            have := (Bool.and_eq_true _ _).mp h4
            exact of_decide_eq_true this.1
          cases h5 : st.cacheKeys with
          | nil =>
            rw [h5] at h4
            simp at h4
          | cons oldest rest =>
            rw [load_sound_insert_evict fs st p v oldest rest h1 h2' h3 h4a h5]
            rw [h5] at hnd hsub1 hsub2 hpk
            have hor : oldest ∉ rest := (List.nodup_cons.mp hnd).1
            have hndr : rest.Nodup := (List.nodup_cons.mp hnd).2
            have hpr : p ∉ rest := fun hr => hpk (List.mem_cons_of_mem _ hr)
            have hmemdel : ∀ q, q ∈ (dictDel st.cache oldest).map Prod.fst ↔
                q ∈ st.cache.map Prod.fst ∧ q ≠ oldest := by
              intro q
              rw [map_fst_dictDel, List.mem_filter]
              simp
            have hmemins : dictMem (dictDel st.cache oldest) p = false := by
              rw [dictMem_eq_false_iff]
              intro hq
              exact hpm ((hmemdel p).mp hq).1
            rw [dictInsert_of_not_mem _ _ _ hmemins]
            refine ⟨?_, ?_, ?_⟩
            · refine List.Nodup.append hndr (List.nodup_singleton p) ?_
              intro q hq hq'
              rw [List.mem_singleton] at hq'
              subst hq'
              exact hpr hq
            · intro q hq
              rw [List.map_append, List.mem_append] at hq
              rw [List.mem_append, List.mem_singleton]
              rcases hq with hq | hq
              · obtain ⟨hq1, hq2⟩ := (hmemdel q).mp hq
                have := hsub1 hq1
                rw [List.mem_cons] at this
                rcases this with rfl | hqr
                · exact absurd rfl hq2
                · exact Or.inl hqr
              · simp at hq
                exact Or.inr hq
            · intro q hq
              rw [List.mem_append, List.mem_singleton] at hq
              rw [List.map_append, List.mem_append]
              rcases hq with hq | hq
              · have hqo : q ≠ oldest := fun he => hor (he ▸ hq)
                have : q ∈ st.cache.map Prod.fst := hsub2 (List.mem_cons_of_mem _ hq)
                exact Or.inl ((hmemdel q).mpr ⟨this, hqo⟩)
              · subst hq
                simp
        · have h4' : (decide (st.cacheSize ≤ st.cacheKeys.length) && !st.cacheKeys.isEmpty) = false := by
            simpa using h4
          rw [load_sound_insert_noevict fs st p v h1 h2' h3 h4']
          rw [dictInsert_of_not_mem _ _ _ h2']
          refine ⟨?_, ?_, ?_⟩
          · refine List.Nodup.append hnd (List.nodup_singleton p) ?_
            intro q hq hq'
            rw [List.mem_singleton] at hq'
            subst hq'
            exact hpk hq
          · intro q hq
            rw [List.map_append, List.mem_append] at hq
            rw [List.mem_append, List.mem_singleton]
            rcases hq with hq | hq
            · exact Or.inl (hsub1 hq)
            · simp at hq
              exact Or.inr hq
          · intro q hq
            rw [List.mem_append, List.mem_singleton] at hq
            rw [List.map_append, List.mem_append]
            rcases hq with hq | hq
            · exact Or.inl (hsub2 hq)
            · subst hq
              simp
  · have h1' : fs.pathExists p = false := by simpa using h1
    rw [load_sound_of_not_exists fs st p h1']
    exact ⟨hnd, hsub1, hsub2⟩

/-- `cleanup` trivially restores the structural invariant. -/
theorem cacheInv_cleanup (st : PlayerState) : CacheInv (cleanup st) := by
  simp [CacheInv, cleanup]

/-- `play` leaves the player state as it was or as `load_sound` left it. -/
theorem play_state_cases (fs : FS) (dev : Payload → DevOutcome) (st : PlayerState)
    (p : String) :
    (play fs dev st p).state = st ∨ (play fs dev st p).state = (load_sound fs st p).state := by
  unfold play
  by_cases h : dictMem st.cache p = true
  · simp only [h, Bool.not_true, Bool.false_eq_true, if_false]
    cases dictGet st.cache p with
    | none => exact Or.inl rfl
    | some payload => exact Or.inl rfl
  · have h' : dictMem st.cache p = false := by simpa using h
    simp only [h', Bool.not_false, if_true]
    by_cases hok : (load_sound fs st p).ok = true
    · simp only [hok, Bool.not_true, Bool.false_eq_true, if_false]
      cases dictGet (load_sound fs st p).state.cache p with
      | none => exact Or.inr rfl
      | some payload => exact Or.inr rfl
    · have hok' : (load_sound fs st p).ok = false := by simpa using hok
      simp [hok']

/-! ### The timed LRU invariant

Reachable instrumented states keep `_cache_keys` strictly ordered by last
access time (least recently accessed at the head), with the dict keys a
permutation of the recency list and the size bounded. -/

def TInv (N : Nat) (ts : TimedState) : Prop :=
  ts.ps.cacheSize = N ∧
  ts.ps.cacheKeys.Nodup ∧
  (ts.ps.cache.map Prod.fst).Perm ts.ps.cacheKeys ∧
  ts.ps.cacheKeys.length ≤ max N 1 ∧
  ts.ps.cacheKeys.Pairwise (fun a b => ts.lastAccess a < ts.lastAccess b) ∧
  ∀ q ∈ ts.ps.cacheKeys, ts.lastAccess q < ts.clock

theorem tLoad_of_load_fail (fs : FS) (ts : TimedState) (p : String)
    (h : (load_sound fs ts.ps p).ok = false) :
    tLoad fs ts p = { ts with ps := (load_sound fs ts.ps p).state } := by
  simp [tLoad, h]

theorem tLoad_of_load_ok (fs : FS) (ts : TimedState) (p : String)
    (h : (load_sound fs ts.ps p).ok = true) :
    tLoad fs ts p =
      { ps := (load_sound fs ts.ps p).state,
        lastAccess := fun q => if q = p then ts.clock else ts.lastAccess q,
        clock := ts.clock + 1 } := by
  simp [tLoad, h]

/-- Assembling the timed invariant after a successful access to `p`:
the new recency list is some `keys1 ++ [p]` where `keys1` collects
previously cached paths (none equal to `p`), ordered by old access time. -/
theorem tInv_mk (N : Nat) (ts : TimedState) (p : String) (st' : PlayerState)
    (keys1 : List String)
    (hsz : st'.cacheSize = N)
    (hkeys : st'.cacheKeys = keys1 ++ [p])
    (hnd1 : keys1.Nodup) (hp1 : p ∉ keys1)
    (hsubk : ∀ q ∈ keys1, q ∈ ts.ps.cacheKeys)
    (hpw1 : keys1.Pairwise (fun a b => ts.lastAccess a < ts.lastAccess b))
    (hclk : ∀ q ∈ ts.ps.cacheKeys, ts.lastAccess q < ts.clock)
    (hperm : (st'.cache.map Prod.fst).Perm st'.cacheKeys)
    (hlen : st'.cacheKeys.length ≤ max N 1) :
    TInv N { ps := st',
             lastAccess := fun q => if q = p then ts.clock else ts.lastAccess q,
             clock := ts.clock + 1 } := by
  refine ⟨hsz, ?_, hperm, hlen, ?_, ?_⟩
  · show st'.cacheKeys.Nodup
    rw [hkeys]
    refine List.Nodup.append hnd1 (List.nodup_singleton p) ?_
    intro q hq hq'
    rw [List.mem_singleton] at hq'
    exact hp1 (hq' ▸ hq)
  · show st'.cacheKeys.Pairwise (fun a b =>
      (if a = p then ts.clock else ts.lastAccess a) <
      (if b = p then ts.clock else ts.lastAccess b))
    rw [hkeys, List.pairwise_append]
    refine ⟨?_, List.pairwise_singleton _ _, ?_⟩
    · refine List.Pairwise.imp_of_mem ?_ hpw1
      intro a b ha hb hab
      have hap : a ≠ p := fun he => hp1 (he ▸ ha)
      have hbp : b ≠ p := fun he => hp1 (he ▸ hb)
      simpa [hap, hbp] using hab
    · intro a ha b hb
      rw [List.mem_singleton] at hb
      have hap : a ≠ p := fun he => hp1 (he ▸ ha)
      rw [hb]
      simpa [hap] using hclk a (hsubk a ha)
  · show ∀ q ∈ st'.cacheKeys,
      (if q = p then ts.clock else ts.lastAccess q) < ts.clock + 1
    intro q hq
    rw [hkeys, List.mem_append, List.mem_singleton] at hq
    rcases hq with hq | hq
    · have hqp : q ≠ p := fun he => hp1 (he ▸ hq)
      simp only [hqp, if_false]
      exact Nat.lt_succ_of_lt (hclk q (hsubk q hq))
    · rw [hq]
      simp

theorem tInv_tLoad (fs : FS) (N : Nat) (ts : TimedState) (p : String) (h : TInv N ts) :
    TInv N (tLoad fs ts p) := by
  obtain ⟨hsz, hnd, hperm, hlen, hpw, hclk⟩ := h
  by_cases h1 : fs.pathExists p = true
  · by_cases h2 : dictMem ts.ps.cache p = true
    · -- cache hit: the path moves to the most-recently-used position
      have hl := load_sound_hit fs ts.ps p h1 h2
      have hok : (load_sound fs ts.ps p).ok = true := by rw [hl]
      rw [tLoad_of_load_ok fs ts p hok, hl]
      have hpm : p ∈ ts.ps.cache.map Prod.fst := (dictMem_iff_mem_map _ _).mp h2
      have hpk : p ∈ ts.ps.cacheKeys := hperm.mem_iff.mp hpm
      refine tInv_mk N ts p _ (ts.ps.cacheKeys.erase p) hsz rfl
        (hnd.erase p) (fun hq => absurd ((hnd.mem_erase_iff).mp hq).1 (by simp))
        (fun q hq => List.erase_subset _ _ hq)
        (hpw.sublist (ts.ps.cacheKeys.erase_sublist p)) hclk ?_ ?_
      · show (ts.ps.cache.map Prod.fst).Perm (ts.ps.cacheKeys.erase p ++ [p])
        exact hperm.trans ((List.perm_cons_erase hpk).trans
          (List.perm_append_singleton _ _).symm)
      · show (ts.ps.cacheKeys.erase p ++ [p]).length ≤ max N 1
        have hpos : 1 ≤ ts.ps.cacheKeys.length :=
          List.length_pos.mpr (List.ne_nil_of_mem hpk)
        rw [List.length_append, List.length_erase_of_mem hpk, List.length_singleton,
          Nat.sub_add_cancel hpos]
        exact hlen
    · have h2' : dictMem ts.ps.cache p = false := by simpa using h2
      have hpm : p ∉ ts.ps.cache.map Prod.fst := (dictMem_eq_false_iff _ _).mp h2'
      have hpk : p ∉ ts.ps.cacheKeys := fun hk => hpm (hperm.mem_iff.mpr hk)
      cases h3 : fs.readWave p with
      | none =>
        have hl := load_sound_read_fail fs ts.ps p h1 h2' h3
        have hok : (load_sound fs ts.ps p).ok = false := by rw [hl]
        rw [tLoad_of_load_fail fs ts p hok, hl]
        exact ⟨hsz, hnd, hperm, hlen, hpw, hclk⟩
      | some v =>
        by_cases h4 : (decide (ts.ps.cacheSize ≤ ts.ps.cacheKeys.length)
            && !ts.ps.cacheKeys.isEmpty) = true
        · have h4a : ts.ps.cacheSize ≤ ts.ps.cacheKeys.length := by
            have := (Bool.and_eq_true _ _).mp h4
            exact of_decide_eq_true this.1
          cases h5 : ts.ps.cacheKeys with
          | nil => rw [h5] at h4; simp at h4
          | cons oldest rest =>
            -- eviction of the head of the recency list, then insertion
            have hl := load_sound_insert_evict fs ts.ps p v oldest rest h1 h2' h3 h4a h5
            have hok : (load_sound fs ts.ps p).ok = true := by rw [hl]
            rw [tLoad_of_load_ok fs ts p hok, hl]
            rw [h5] at hnd hperm hlen hpw hclk hpk
            have hor : oldest ∉ rest := (List.nodup_cons.mp hnd).1
            have hndr : rest.Nodup := (List.nodup_cons.mp hnd).2
            have hpr : p ∉ rest := fun hr => hpk (List.mem_cons_of_mem _ hr)
            have hmemins : dictMem (dictDel ts.ps.cache oldest) p = false := by
              rw [dictMem_eq_false_iff, map_fst_dictDel, List.mem_filter]
              rintro ⟨hq, -⟩
              exact hpm hq
            refine tInv_mk N ts p _ rest hsz rfl hndr hpr
              (fun q hq => by rw [h5]; exact List.mem_cons_of_mem _ hq)
              ((List.pairwise_cons.mp hpw).2)
              (fun q hq => by rw [h5] at hq; exact hclk q hq) ?_ ?_
            · show ((dictInsert (dictDel ts.ps.cache oldest) p v).map Prod.fst).Perm
                (rest ++ [p])
              rw [dictInsert_of_not_mem _ _ _ hmemins, List.map_append, map_fst_dictDel]
              refine List.Perm.append ?_ (by simp)
              have hfil := hperm.filter (fun q => !(q = oldest : Bool))
              have hre : (oldest :: rest).filter (fun q => !(q = oldest : Bool)) = rest := by
                rw [List.filter_cons]
                simp only [decide_True, Bool.not_true, Bool.false_eq_true, if_false]
                refine List.filter_eq_self.mpr (fun a ha => ?_)
                simp only [Bool.not_eq_true']
                exact decide_eq_false (fun he => hor (he ▸ ha))
              rwa [hre] at hfil
            · show (rest ++ [p]).length ≤ max N 1
              rw [List.length_append, List.length_singleton]
              rw [List.length_cons] at hlen
              exact hlen
        · have h4' : (decide (ts.ps.cacheSize ≤ ts.ps.cacheKeys.length)
              && !ts.ps.cacheKeys.isEmpty) = false := by simpa using h4
          have hl := load_sound_insert_noevict fs ts.ps p v h1 h2' h3 h4'
          have hok : (load_sound fs ts.ps p).ok = true := by rw [hl]
          rw [tLoad_of_load_ok fs ts p hok, hl]
          refine tInv_mk N ts p _ ts.ps.cacheKeys hsz rfl hnd hpk
            (fun q hq => hq) hpw hclk ?_ ?_
          · show ((dictInsert ts.ps.cache p v).map Prod.fst).Perm
              (ts.ps.cacheKeys ++ [p])
            rw [dictInsert_of_not_mem _ _ _ h2', List.map_append]
            exact List.Perm.append hperm (by simp)
          · show (ts.ps.cacheKeys ++ [p]).length ≤ max N 1
            rw [List.length_append, List.length_singleton]
            rcases Bool.and_eq_false_iff.mp h4' with hc | hc
            · have hlt : ¬ (ts.ps.cacheSize ≤ ts.ps.cacheKeys.length) :=
                of_decide_eq_false hc
              rw [hsz] at hlt
              exact le_trans (Nat.succ_le_of_lt (Nat.lt_of_not_le hlt)) (le_max_left N 1)
            · have hemp : ts.ps.cacheKeys = [] := by
                simpa [List.isEmpty_iff] using hc
              rw [hemp]
              simp [le_max_right]
  · have h1' : fs.pathExists p = false := by simpa using h1
    have hl := load_sound_of_not_exists fs ts.ps p h1'
    have hok : (load_sound fs ts.ps p).ok = false := by rw [hl]
    rw [tLoad_of_load_fail fs ts p hok, hl]
    exact ⟨hsz, hnd, hperm, hlen, hpw, hclk⟩
theorem tInv_init (N : Nat) : TInv N (initTimed N) := by
  refine ⟨rfl, ?_, ?_, ?_, ?_, ?_⟩ <;> simp [initTimed, initPlayer]

theorem tInv_runTLoads (fs : FS) (N : Nat) :
    ∀ (tr : List String) (ts : TimedState), TInv N ts → TInv N (runTLoads fs ts tr)
  | [], _, h => h
  | p :: tr, ts, h => tInv_runTLoads fs N tr (tLoad fs ts p) (tInv_tLoad fs N ts p h)

/-- When `load_sound` evicts an entry, that entry is the one with the
smallest last-access stamp among the currently cached entries. -/
theorem evictedBy_least (fs : FS) (N : Nat) (ts : TimedState) (p e : String)
    (h : TInv N ts) (he : evictedBy fs ts.ps p = some e) :
    e ∈ ts.ps.cacheKeys ∧
    ∀ q ∈ ts.ps.cacheKeys, ts.lastAccess e ≤ ts.lastAccess q := by
  obtain ⟨-, -, -, -, hpw, -⟩ := h
  have hh : ts.ps.cacheKeys.head? = some e := by
    by_cases h1 : fs.pathExists p = true
    · by_cases h2 : dictMem ts.ps.cache p = true
      · simp [evictedBy, h1, h2] at he
      · have h2' : dictMem ts.ps.cache p = false := by simpa using h2
        cases h3 : fs.readWave p with
        | none => simp [evictedBy, h1, h2', h3] at he
        | some v =>
          by_cases h4 : (decide (ts.ps.cacheSize ≤ ts.ps.cacheKeys.length)
              && !ts.ps.cacheKeys.isEmpty) = true
          · simpa [evictedBy, h1, h2', h3, h4] using he
          · have h4' : (decide (ts.ps.cacheSize ≤ ts.ps.cacheKeys.length)
                && !ts.ps.cacheKeys.isEmpty) = false := by simpa using h4
            simp [evictedBy, h1, h2', h3, h4'] at he
    · have h1' : fs.pathExists p = false := by simpa using h1
      simp [evictedBy, h1'] at he
  cases hk : ts.ps.cacheKeys with
  | nil => rw [hk] at hh; simp at hh
  | cons a t =>
    rw [hk] at hh hpw
    simp at hh
    subst hh
    have hrest := (List.pairwise_cons.mp hpw).1
    constructor
    · exact List.mem_cons_self _ _
    · intro q hq
      rw [List.mem_cons] at hq
      rcases hq with rfl | hq
      · exact Nat.le_refl _
      · exact Nat.le_of_lt (hrest q hq)

/-! ### Further facts about `load_sound` and `play` -/

theorem dictMem_append_self (d : List (String × Payload)) (k : String) (v : Payload) :
    dictMem (d ++ [(k, v)]) k = true := by
  simp [dictMem, List.any_append]

/-- A failing `load_sound` leaves the player state untouched. -/
theorem load_sound_state_of_fail (fs : FS) (st : PlayerState) (p : String)
    (h : (load_sound fs st p).ok = false) : (load_sound fs st p).state = st := by
  by_cases h1 : fs.pathExists p = true
  · by_cases h2 : dictMem st.cache p = true
    · rw [load_sound_hit fs st p h1 h2] at h
      simp at h
    · have h2' : dictMem st.cache p = false := by simpa using h2
      cases h3 : fs.readWave p with
      | none => rw [load_sound_read_fail fs st p h1 h2' h3]
      | some v =>
        exfalso
        by_cases h4 : (decide (st.cacheSize ≤ st.cacheKeys.length) && !st.cacheKeys.isEmpty) = true
        · have h4a : st.cacheSize ≤ st.cacheKeys.length := by
            have := (Bool.and_eq_true _ _).mp h4
            exact of_decide_eq_true this.1
          cases h5 : st.cacheKeys with
          | nil => rw [h5] at h4; simp at h4
          | cons oldest rest =>
            rw [load_sound_insert_evict fs st p v oldest rest h1 h2' h3 h4a h5] at h
            simp at h
        · have h4' : (decide (st.cacheSize ≤ st.cacheKeys.length) && !st.cacheKeys.isEmpty) = false := by
            simpa using h4
          rw [load_sound_insert_noevict fs st p v h1 h2' h3 h4'] at h
          simp at h
  · have h1' : fs.pathExists p = false := by simpa using h1
    rw [load_sound_of_not_exists fs st p h1']

/-- A successful `load_sound` leaves the path in the dict. -/
theorem load_sound_mem_of_ok (fs : FS) (st : PlayerState) (p : String)
    (h : (load_sound fs st p).ok = true) :
    dictMem (load_sound fs st p).state.cache p = true := by
  by_cases h1 : fs.pathExists p = true
  · by_cases h2 : dictMem st.cache p = true
    · rw [load_sound_hit fs st p h1 h2]
      exact h2
    · have h2' : dictMem st.cache p = false := by simpa using h2
      have hpm : p ∉ st.cache.map Prod.fst := (dictMem_eq_false_iff _ _).mp h2'
      cases h3 : fs.readWave p with
      | none =>
        rw [load_sound_read_fail fs st p h1 h2' h3] at h
        simp at h
      | some v =>
        by_cases h4 : (decide (st.cacheSize ≤ st.cacheKeys.length) && !st.cacheKeys.isEmpty) = true
        · have h4a : st.cacheSize ≤ st.cacheKeys.length := by
            have := (Bool.and_eq_true _ _).mp h4
            exact of_decide_eq_true this.1
          cases h5 : st.cacheKeys with
          | nil => rw [h5] at h4; simp at h4
          | cons oldest rest =>
            rw [load_sound_insert_evict fs st p v oldest rest h1 h2' h3 h4a h5]
            have hmemins : dictMem (dictDel st.cache oldest) p = false := by
              rw [dictMem_eq_false_iff, map_fst_dictDel, List.mem_filter]
              rintro ⟨hq, -⟩
              exact hpm hq
            rw [dictInsert_of_not_mem _ _ _ hmemins]
            exact dictMem_append_self _ _ _
        · have h4' : (decide (st.cacheSize ≤ st.cacheKeys.length) && !st.cacheKeys.isEmpty) = false := by
            simpa using h4
          rw [load_sound_insert_noevict fs st p v h1 h2' h3 h4']
          rw [dictInsert_of_not_mem _ _ _ h2']
          exact dictMem_append_self _ _ _
  · have h1' : fs.pathExists p = false := by simpa using h1
    rw [load_sound_of_not_exists fs st p h1'] at h
    simp at h

/-- A miss with existing, readable file: `load_sound` succeeds, reads the
wave file, and caches the path. -/
theorem load_sound_miss_success (fs : FS) (st : PlayerState) (p : String) (v : Payload)
    (h1 : fs.pathExists p = true) (h2 : dictMem st.cache p = false)
    (h3 : fs.readWave p = some v) :
    (load_sound fs st p).ok = true ∧
    (load_sound fs st p).ioEvents = [IOEvent.statCheck p, IOEvent.waveRead p] ∧
    dictMem (load_sound fs st p).state.cache p = true := by
  have hpm : p ∉ st.cache.map Prod.fst := (dictMem_eq_false_iff _ _).mp h2
  by_cases h4 : (decide (st.cacheSize ≤ st.cacheKeys.length) && !st.cacheKeys.isEmpty) = true
  · have h4a : st.cacheSize ≤ st.cacheKeys.length := by
      have := (Bool.and_eq_true _ _).mp h4
      exact of_decide_eq_true this.1
    cases h5 : st.cacheKeys with
    | nil => rw [h5] at h4; simp at h4
    | cons oldest rest =>
      rw [load_sound_insert_evict fs st p v oldest rest h1 h2 h3 h4a h5]
      have hmemins : dictMem (dictDel st.cache oldest) p = false := by
        rw [dictMem_eq_false_iff, map_fst_dictDel, List.mem_filter]
        rintro ⟨hq, -⟩
        exact hpm hq
      rw [dictInsert_of_not_mem _ _ _ hmemins]
      exact ⟨rfl, rfl, dictMem_append_self _ _ _⟩
  · have h4' : (decide (st.cacheSize ≤ st.cacheKeys.length) && !st.cacheKeys.isEmpty) = false := by
      simpa using h4
    rw [load_sound_insert_noevict fs st p v h1 h2 h3 h4']
    rw [dictInsert_of_not_mem _ _ _ h2]
    exact ⟨rfl, rfl, dictMem_append_self _ _ _⟩

/-- `play` never lets an exception escape: every failure is handled
inside the function. -/
theorem play_raised_none (fs : FS) (dev : Payload → DevOutcome) (st : PlayerState)
    (p : String) : (play fs dev st p).raised = none := by
  unfold play
  by_cases h : dictMem st.cache p = true
  · obtain ⟨v, hv⟩ := dictGet_isSome_of_mem st.cache p h
    simp [h, hv]
  · have h' : dictMem st.cache p = false := by simpa using h
    by_cases hok : (load_sound fs st p).ok = true
    · have hmem : dictMem (load_sound fs st p).state.cache p = true :=
        load_sound_mem_of_ok fs st p hok
      obtain ⟨v, hv⟩ := dictGet_isSome_of_mem _ _ hmem
      simp [h', hok, hv]
    · have hok' : (load_sound fs st p).ok = false := by simpa using hok
      simp [h', hok']

/-! ### Facts about the callback delivery loop -/

theorem onPressLoop_all_ok (k : Key) :
    ∀ (cbs : List Callback) (i : Nat), (∀ cb ∈ cbs, cb k "press" = none) →
      onPressLoop cbs k i = (List.range' i cbs.length, none)
  | [], i, _ => by simp [onPressLoop, List.range']
  | cb :: rest, i, h => by
    have hcb : cb k "press" = none := h cb (List.mem_cons_self _ _)
    have ih := onPressLoop_all_ok k rest (i + 1)
      (fun c hc => h c (List.mem_cons_of_mem _ hc))
    simp [onPressLoop, hcb, ih, List.range']

theorem onPressLoop_abort (k : Key) (bad : Callback) (post : List Callback) (e : String)
    (hbad : bad k "press" = some e) :
    ∀ (pre : List Callback) (i : Nat), (∀ cb ∈ pre, cb k "press" = none) →
      onPressLoop (pre ++ bad :: post) k i = (List.range' i (pre.length + 1), some e)
  | [], i, _ => by simp [onPressLoop, hbad, List.range']
  | cb :: rest, i, h => by
    have hcb : cb k "press" = none := h cb (List.mem_cons_self _ _)
    have ih := onPressLoop_abort k bad post e hbad rest (i + 1)
      (fun c hc => h c (List.mem_cons_of_mem _ hc))
    simp [onPressLoop, hcb, ih, List.range']

/-! ### Claim theorems -/

/-- C6: for every path not in the cache, a failing `load_sound` (missing
file, or unreadable/malformed wave data) returns `False` and leaves the
player state — both the dict and the recency list — exactly as it was;
no exception escapes (the embedding returns on every path: the wave read
sits inside `try/except Exception`, and the pre-`try` statements cannot
raise on this path). -/
theorem failed_load_leaves_cache_unchanged (fs : FS) (st : PlayerState) (p : String)
    (hmem : dictMem st.cache p = false)
    (hfail : fs.pathExists p = false ∨ fs.readWave p = none) :
    (load_sound fs st p).ok = false ∧
    (load_sound fs st p).state = st ∧
    (load_sound fs st p).state.cache = st.cache ∧
    (load_sound fs st p).state.cacheKeys = st.cacheKeys := by
  rcases hfail with h | h
  · rw [load_sound_of_not_exists fs st p h]
    exact ⟨rfl, rfl, rfl, rfl⟩
  · by_cases h1 : fs.pathExists p = true
    · rw [load_sound_read_fail fs st p h1 hmem h]
      exact ⟨rfl, rfl, rfl, rfl⟩
    · rw [load_sound_of_not_exists fs st p (by simpa using h1)]
      exact ⟨rfl, rfl, rfl, rfl⟩

theorem failed_load_leaves_cache_unchanged_witness :
    dictMem stA.cache "b.wav" = false ∧
    fsGone.pathExists "b.wav" = false ∧
    ((load_sound fsGone stA "b.wav").ok = false ∧
     (load_sound fsGone stA "b.wav").state = stA ∧
     (load_sound fsGone stA "b.wav").state.cache = stA.cache ∧
     (load_sound fsGone stA "b.wav").state.cacheKeys = stA.cacheKeys) :=
  ⟨by decide, rfl,
   failed_load_leaves_cache_unchanged fsGone stA "b.wav" (by decide) (Or.inl rfl)⟩

/-- C7: `play` on an uncached path whose load fails returns normally,
performs no device interaction (no stream opened or written) and leaves
the state unchanged; and in general no playback failure ever escapes
`play` to its caller. -/
theorem play_failure_silent_noop (fs : FS) (dev : Payload → DevOutcome)
    (st : PlayerState) (p : String)
    (hmem : dictMem st.cache p = false)
    (hfail : (load_sound fs st p).ok = false) :
    play fs dev st p = { state := st, devEvents := [], raised := none } ∧
    (∀ (fs' : FS) (dev' : Payload → DevOutcome) (st' : PlayerState) (p' : String),
      (play fs' dev' st' p').raised = none) := by
  constructor
  · have hst : (load_sound fs st p).state = st := load_sound_state_of_fail fs st p hfail
    simp [play, hmem, hfail, hst]
  · intro fs' dev' st' p'
    exact play_raised_none fs' dev' st' p'

theorem play_failure_silent_noop_witness :
    dictMem (initPlayer 1).cache "x.wav" = false ∧
    (load_sound fsGone (initPlayer 1) "x.wav").ok = false ∧
    play fsGone (fun _ => DevOutcome.ok) (initPlayer 1) "x.wav" =
      { state := initPlayer 1, devEvents := [], raised := none } ∧
    (play fsAll (fun _ => DevOutcome.openFails) stA "a.wav").raised = none :=
  ⟨by decide, rfl,
   (play_failure_silent_noop fsGone (fun _ => DevOutcome.ok) (initPlayer 1) "x.wav"
     (by decide) rfl).1,
   (play_failure_silent_noop fsGone (fun _ => DevOutcome.ok) (initPlayer 1) "x.wav"
     (by decide) rfl).2 fsAll (fun _ => DevOutcome.openFails) stA "a.wav"⟩

/-- C8: with capacity 2, the sequence load("a.wav"), load("b.wav"),
load("a.wav") (a cache hit that refreshes recency), load("c.wav") evicts
"b.wav" — the least recently used entry — and leaves the cache holding
exactly "a.wav" and "c.wav". -/
theorem lru_hit_refresh_scenario :
    (load_sound fsAll stAB "a.wav").ok = true ∧
    stABA.cacheKeys = ["b.wav", "a.wav"] ∧
    evictedBy fsAll stABA "c.wav" = some "b.wav" ∧
    stABAC.cacheKeys = ["a.wav", "c.wav"] ∧
    stABAC.cache.map Prod.fst = ["a.wav", "c.wav"] :=
  ⟨rfl, rfl, rfl, rfl, rfl⟩

/-- C9: `cleanup` empties the cache, and a second `cleanup` is a safe
no-op: it raises nothing (the `pa.terminate()` call is wrapped in a bare
`except: pass`) and produces the identical empty state. -/
theorem cleanup_idempotent (st : PlayerState) :
    (cleanup st).cache = [] ∧ (cleanup st).cacheKeys = [] ∧
    cleanup (cleanup st) = cleanup st ∧
    (cleanup (cleanup st)).cache = [] ∧ (cleanup (cleanup st)).cacheKeys = [] :=
  ⟨rfl, rfl, rfl, rfl, rfl⟩

/-- C10: every `TinyPlayer` operation preserves the structural invariant:
the keys of the dict are exactly the elements of the recency list, and
the recency list has no duplicates. -/
theorem tinyPlayer_ops_preserve_cache_invariant (fs : FS) (dev : Payload → DevOutcome)
    (st : PlayerState) (p : String) (h : CacheInv st) :
    CacheInv (load_sound fs st p).state ∧
    CacheInv (play fs dev st p).state ∧
    CacheInv (cleanup st) := by
  refine ⟨cacheInv_load fs st p h, ?_, cacheInv_cleanup st⟩
  rcases play_state_cases fs dev st p with he | he
  · rw [he]; exact h
  · rw [he]; exact cacheInv_load fs st p h

theorem tinyPlayer_ops_preserve_cache_invariant_witness :
    CacheInv stA ∧
    (CacheInv (load_sound fsAll stA "b.wav").state ∧
     CacheInv (play fsAll (fun _ => DevOutcome.ok) stA "b.wav").state ∧
     CacheInv (cleanup stA)) :=
  ⟨by decide,
   tinyPlayer_ops_preserve_cache_invariant fsAll (fun _ => DevOutcome.ok) stA "b.wav"
     (by decide)⟩

/-- C1: for every sequence of `load_sound` calls on a player built with
capacity `N ≥ 1`, the cache (dict and recency list) never holds more than
`N` entries, and whenever a call evicts an entry it is the least recently
accessed (loaded or hit) entry among those currently cached — the entry
with the smallest last-access stamp; concretely, with capacity 2 the
sequence load("a.wav"), load("b.wav"), load("c.wav") evicts "a.wav" and
leaves exactly "b.wav" and "c.wav" cached. -/
theorem lru_capacity_and_eviction_law (N : Nat) (hN : 1 ≤ N) (fs : FS)
    (tr : List String) :
    (runTLoads fs (initTimed N) tr).ps.cacheKeys.length ≤ N ∧
    (runTLoads fs (initTimed N) tr).ps.cache.length ≤ N ∧
    (∀ (p e : String),
      evictedBy fs (runTLoads fs (initTimed N) tr).ps p = some e →
      e ∈ (runTLoads fs (initTimed N) tr).ps.cacheKeys ∧
      ∀ q ∈ (runTLoads fs (initTimed N) tr).ps.cacheKeys,
        (runTLoads fs (initTimed N) tr).lastAccess e ≤
        (runTLoads fs (initTimed N) tr).lastAccess q) ∧
    stABC.cacheKeys = ["b.wav", "c.wav"] ∧
    stABC.cache.map Prod.fst = ["b.wav", "c.wav"] ∧
    evictedBy fsAll stAB "c.wav" = some "a.wav" := by
  have hinv : TInv N (runTLoads fs (initTimed N) tr) :=
    tInv_runTLoads fs N tr (initTimed N) (tInv_init N)
  have hmax : max N 1 = N := max_eq_left hN
  have hkeys : (runTLoads fs (initTimed N) tr).ps.cacheKeys.length ≤ N := by
    have := hinv.2.2.2.1
    rwa [hmax] at this
  refine ⟨hkeys, ?_, ?_, rfl, rfl, rfl⟩
  · have hlm : (runTLoads fs (initTimed N) tr).ps.cache.length =
        (runTLoads fs (initTimed N) tr).ps.cacheKeys.length := by
      rw [← List.length_map (runTLoads fs (initTimed N) tr).ps.cache Prod.fst]
      exact hinv.2.2.1.length_eq
    rw [hlm]
    exact hkeys
  · intro p e he
    exact evictedBy_least fs N (runTLoads fs (initTimed N) tr) p e hinv he

theorem lru_capacity_and_eviction_law_witness :
    1 ≤ 2 ∧
    (runTLoads fsAll (initTimed 2) ["a.wav", "b.wav"]).ps.cacheKeys.length ≤ 2 ∧
    evictedBy fsAll (runTLoads fsAll (initTimed 2) ["a.wav", "b.wav"]).ps "c.wav" =
      some "a.wav" ∧
    "a.wav" ∈ (runTLoads fsAll (initTimed 2) ["a.wav", "b.wav"]).ps.cacheKeys ∧
    "b.wav" ∈ (runTLoads fsAll (initTimed 2) ["a.wav", "b.wav"]).ps.cacheKeys ∧
    (runTLoads fsAll (initTimed 2) ["a.wav", "b.wav"]).lastAccess "a.wav" ≤
      (runTLoads fsAll (initTimed 2) ["a.wav", "b.wav"]).lastAccess "b.wav" :=
  ⟨by decide,
   (lru_capacity_and_eviction_law 2 (by decide) fsAll ["a.wav", "b.wav"]).1,
   by decide,
   ((lru_capacity_and_eviction_law 2 (by decide) fsAll ["a.wav", "b.wav"]).2.2.1
     "c.wav" "a.wav" (by decide)).1,
   by decide,
   ((lru_capacity_and_eviction_law 2 (by decide) fsAll ["a.wav", "b.wav"]).2.2.1
     "c.wav" "a.wav" (by decide)).2 "b.wav" (by decide)⟩

/-- C2 counterexample: a path already present in the cache does not always
load successfully and not without file I/O: with "a.wav" cached but its
file gone (`os.path.exists` false), `load_sound` returns `False`; and a
successful cache hit still performs the `os.path.exists` filesystem
check. -/
theorem cached_load_counterexample :
    dictMem stA.cache "a.wav" = true ∧
    (load_sound fsGone stA "a.wav").ok = false ∧
    (load_sound fsAll stA "a.wav").ok = true ∧
    (load_sound fsAll stA "a.wav").ioEvents ≠ [] :=
  ⟨by decide, rfl, rfl, by decide⟩

/-- C2 (amended): for a path already in the cache whose file still passes
the `os.path.exists` check, `load_sound` returns success, moves the entry
to the most-recently-used (tail) position and performs no wave-file read
(its only file I/O is the existence check); loading the same path twice
(file present and readable) succeeds both times with the wave file read
only on the first call. -/
theorem cached_load_hit_behavior (fs : FS) (st : PlayerState) (p : String)
    (hmem : dictMem st.cache p = true) (hex : fs.pathExists p = true) :
    ((load_sound fs st p).ok = true ∧
     (load_sound fs st p).state.cacheKeys = st.cacheKeys.erase p ++ [p] ∧
     (load_sound fs st p).ioEvents = [IOEvent.statCheck p]) ∧
    (∀ (fs' : FS) (st' : PlayerState) (p' : String) (v : Payload),
      dictMem st'.cache p' = false → fs'.pathExists p' = true →
      fs'.readWave p' = some v →
      (load_sound fs' st' p').ok = true ∧
      IOEvent.waveRead p' ∈ (load_sound fs' st' p').ioEvents ∧
      (load_sound fs' (load_sound fs' st' p').state p').ok = true ∧
      IOEvent.waveRead p' ∉ (load_sound fs' (load_sound fs' st' p').state p').ioEvents) := by
  constructor
  · rw [load_sound_hit fs st p hex hmem]
    exact ⟨rfl, rfl, rfl⟩
  · intro fs' st' p' v hmiss hex' hread
    obtain ⟨hok1, hio1, hmem1⟩ := load_sound_miss_success fs' st' p' v hex' hmiss hread
    have h2 := load_sound_hit fs' (load_sound fs' st' p').state p' hex' hmem1
    refine ⟨hok1, ?_, ?_, ?_⟩
    · rw [hio1]
      simp
    · rw [h2]
    · rw [h2]
      simp

theorem cached_load_hit_behavior_witness :
    dictMem stA.cache "a.wav" = true ∧
    fsAll.pathExists "a.wav" = true ∧
    ((load_sound fsAll stA "a.wav").ok = true ∧
     (load_sound fsAll stA "a.wav").state.cacheKeys =
       stA.cacheKeys.erase "a.wav" ++ ["a.wav"] ∧
     (load_sound fsAll stA "a.wav").ioEvents = [IOEvent.statCheck "a.wav"]) ∧
    ((load_sound fsAll (initPlayer 2) "b.wav").ok = true ∧
     IOEvent.waveRead "b.wav" ∈ (load_sound fsAll (initPlayer 2) "b.wav").ioEvents ∧
     (load_sound fsAll (load_sound fsAll (initPlayer 2) "b.wav").state "b.wav").ok = true ∧
     IOEvent.waveRead "b.wav" ∉
       (load_sound fsAll (load_sound fsAll (initPlayer 2) "b.wav").state "b.wav").ioEvents) :=
  ⟨by decide, rfl,
   (cached_load_hit_behavior fsAll stA "a.wav" (by decide) rfl).1,
   (cached_load_hit_behavior fsAll stA "a.wav" (by decide) rfl).2
     fsAll (initPlayer 2) "b.wav" payload0 (by decide) rfl rfl⟩

/-- C3 counterexample: registering callbacks [raising, normal, normal]
and delivering one key-press invokes only the first callback; the raising
callback aborts the loop of `_on_press`, so callbacks 1 and 2 never run
and the exception escapes. -/
theorem callback_exception_aborts_delivery_counterexample :
    (on_press [cbRaises, cbOk, cbOk] false keyA).2.1 = [0] ∧
    1 ∉ (on_press [cbRaises, cbOk, cbOk] false keyA).2.1 ∧
    2 ∉ (on_press [cbRaises, cbOk, cbOk] false keyA).2.1 ∧
    (on_press [cbRaises, cbOk, cbOk] false keyA).2.2 = some "boom" :=
  ⟨rfl, by decide, by decide, rfl⟩

/-- C3 (amended): callbacks are invoked in registration order — when every
callback returns normally, all of them run as 0, 1, ..., n-1 and no
exception escapes; but when a callback raises, the exception propagates
out of the delivery loop and the callbacks registered after it are not
invoked. -/
theorem callbacks_registration_order (cbs : List Callback) (hasLogger : Bool) (k : Key)
    (hok : ∀ cb ∈ cbs, cb k "press" = none) :
    ((on_press cbs hasLogger k).2.1 = List.range cbs.length ∧
     (on_press cbs hasLogger k).2.2 = none) ∧
    (∀ (pre post : List Callback) (bad : Callback) (e : String),
      (∀ cb ∈ pre, cb k "press" = none) → bad k "press" = some e →
      (on_press (pre ++ bad :: post) hasLogger k).2.1 = List.range (pre.length + 1) ∧
      (on_press (pre ++ bad :: post) hasLogger k).2.2 = some e) := by
  constructor
  · have h := onPressLoop_all_ok k cbs 0 hok
    constructor
    · show (onPressLoop cbs k 0).1 = List.range cbs.length
      rw [h, List.range_eq_range']
    · show (onPressLoop cbs k 0).2 = none
      rw [h]
  · intro pre post bad e hpre hbad
    have h := onPressLoop_abort k bad post e hbad pre 0 hpre
    constructor
    · show (onPressLoop (pre ++ bad :: post) k 0).1 = List.range (pre.length + 1)
      rw [h, List.range_eq_range']
    · show (onPressLoop (pre ++ bad :: post) k 0).2 = some e
      rw [h]

theorem callbacks_registration_order_witness :
    ((on_press [cbOk, cbOk] true keyA).2.1 = List.range 2 ∧
     (on_press [cbOk, cbOk] true keyA).2.2 = none) ∧
    ((on_press ([cbOk] ++ cbRaises :: [cbOk]) true keyA).2.1 = List.range 2 ∧
     (on_press ([cbOk] ++ cbRaises :: [cbOk]) true keyA).2.2 = some "boom") :=
  ⟨(callbacks_registration_order [cbOk, cbOk] true keyA (by simp [cbOk])).1,
   (callbacks_registration_order [cbOk, cbOk] true keyA (by simp [cbOk])).2
     [cbOk] [cbOk] cbRaises "boom" (by simp [cbOk]) rfl⟩

/-- C4 counterexample: when the initial load fails, the entry point does
stop before starting the listener, but the bare `exit()` call terminates
the process with exit status 0, not a non-zero status. -/
theorem failed_load_exit_status_zero_counterexample :
    (load_sound fsGone (initPlayer 100) "beep.wav").ok = false ∧
    (mainEntry fsGone "beep.wav").listenerStarted = false ∧
    (mainEntry fsGone "beep.wav").exitStatus = 0 :=
  ⟨rfl, rfl, rfl⟩

/-- C4 (amended): if the initial `load_sound` of the configured path fails,
the process terminates before the listener is started, printing the
failure message — but with exit status 0, because the failure branch calls
`exit()` with no argument. -/
theorem failed_load_exits_before_listener (fs : FS) (p : String)
    (h : (load_sound fs (initPlayer 100) p).ok = false) :
    mainEntry fs p = { exitStatus := 0, listenerStarted := false,
                       printed := ["Failed to load sound"] } := by
  simp [mainEntry, h]

theorem failed_load_exits_before_listener_witness :
    (load_sound fsGone (initPlayer 100) "beep.wav").ok = false ∧
    mainEntry fsGone "beep.wav" =
      { exitStatus := 0, listenerStarted := false,
        printed := ["Failed to load sound"] } :=
  ⟨rfl, failed_load_exits_before_listener fsGone "beep.wav" rfl⟩

/-! ### Case equations for the lock-discipline traces -/

theorem load_sound_steps_hit (fs : FS) (st : PlayerState) (p : String)
    (h1 : fs.pathExists p = true) (h2 : dictMem st.cache p = true) :
    load_sound_steps fs st p =
      [{ mutates := true, locked := false }, { mutates := true, locked := false }] := by
  simp [load_sound_steps, h1, h2]

theorem load_sound_steps_miss_locked (fs : FS) (st : PlayerState) (p : String)
    (hmiss : dictMem st.cache p = false) :
    ∀ s ∈ load_sound_steps fs st p, s.mutates = true ∧ s.locked = true := by
  intro s hs
  by_cases h1 : fs.pathExists p = true
  · cases h3 : fs.readWave p with
    | none => simp [load_sound_steps, h1, hmiss, h3] at hs
    | some v =>
      by_cases h4 : (decide (st.cacheSize ≤ st.cacheKeys.length) && !st.cacheKeys.isEmpty) = true
      · simp [load_sound_steps, h1, hmiss, h3, h4] at hs
        rw [hs]
        exact ⟨rfl, rfl⟩
      · have h4' : (decide (st.cacheSize ≤ st.cacheKeys.length) && !st.cacheKeys.isEmpty) = false := by
          simpa using h4
        simp [load_sound_steps, h1, hmiss, h3, h4'] at hs
        rw [hs]
        exact ⟨rfl, rfl⟩
  · have h1' : fs.pathExists p = false := by simpa using h1
    simp [load_sound_steps, h1'] at hs

/-- C5 counterexample: not every cache mutation happens under the lock.
On a cache hit, `load_sound` mutates the recency list
(`_cache_keys.remove` and `.append`, player.py lines 27-28) with the
lock not held, and `cleanup` clears both containers without ever taking
the lock. -/
theorem unlocked_cache_mutation_counterexample :
    Step.mk true false ∈ load_sound_steps fsAll stA "a.wav" ∧
    (load_sound_steps fsAll stA "a.wav").all
      (fun s => s.mutates && !s.locked) = true ∧
    cleanup_steps.all (fun s => s.mutates && !s.locked) = true := by
  refine ⟨?_, ?_, ?_⟩ <;> decide

/-- C5 (amended): only the miss-path critical section obeys the claim:
eviction and insertion mutations run with the lock held (and the
`with self._lock` block releases it on every exit path); but the
cache-hit recency update and both of cleanup's clears mutate the shared
cache state without holding the lock. -/
theorem lock_discipline_corrected (fs : FS) (st : PlayerState) (p : String)
    (hmiss : dictMem st.cache p = false) :
    (∀ s ∈ load_sound_steps fs st p, s.mutates = true ∧ s.locked = true) ∧
    (∀ (fs' : FS) (st' : PlayerState) (p' : String),
      dictMem st'.cache p' = true → fs'.pathExists p' = true →
      load_sound_steps fs' st' p' =
        [{ mutates := true, locked := false }, { mutates := true, locked := false }]) ∧
    cleanup_steps =
      [{ mutates := true, locked := false }, { mutates := true, locked := false }] := by
  refine ⟨load_sound_steps_miss_locked fs st p hmiss, ?_, rfl⟩
  intro fs' st' p' hmem hex
  exact load_sound_steps_hit fs' st' p' hex hmem

theorem lock_discipline_corrected_witness :
    dictMem stA.cache "b.wav" = false ∧
    load_sound_steps fsAll stA "b.wav" =
      [{ mutates := true, locked := true }, { mutates := true, locked := true }] ∧
    ((Step.mk true true).mutates = true ∧ (Step.mk true true).locked = true) ∧
    load_sound_steps fsAll stA "a.wav" =
      [{ mutates := true, locked := false }, { mutates := true, locked := false }] :=
  ⟨by decide, by decide,
   (lock_discipline_corrected fsAll stA "b.wav" (by decide)).1
     (Step.mk true true) (by decide),
   (lock_discipline_corrected fsAll stA "b.wav" (by decide)).2.1
     fsAll stA "a.wav" (by decide) rfl⟩
